import Mathlib

/-!
Verification of the beam-search decoding core of
`pynovo/models/casanovo/casanovo_modeling.py` (class `Spec2Pep`).

The Python functions are shallowly embedded as executable Lean definitions:
floating-point numbers become rationals (`ℚ`), NumPy/Torch `nan` entries
become `Option ℚ` with `none` for `nan`, token identifiers become `Nat`,
and the fallible residue-mass lookup (Python `KeyError`) becomes an
`Option`-valued table.  The decoder's softmax output is opaque to the
decoding logic; the per-position scores it produces enter the model as
explicit input lists.
-/

namespace Casanovo

/-- Embedding of `_calc_mass_error` (casanovo_modeling.py, lines 1060-1083):
`(calc_mz - (obs_mz - isotope * 1.00335 / charge)) / obs_mz * 10**6`,
with the float literal `1.00335` as the rational `100335 / 100000`. -/
def calcMassError (calcMz obsMz charge iso : ℚ) : ℚ :=
  (calcMz - (obsMz - iso * (100335 / 100000) / charge)) / obsMz * 10 ^ 6

/-- Python `range(lo, hi + 1)` over integers, as used in `_finish_beams`
(lines 438-441) for `range(self.isotope_error_range[0],
self.isotope_error_range[1] + 1)`. -/
def isotopeRange (lo hi : ℤ) : List ℤ :=
  (List.range (hi + 1 - lo).toNat).map (fun (n : ℕ) => lo + (n : ℤ))

/-- The list `delta_mass_ppm` of `_finish_beams` (lines 431-442): the ppm
mass error of `calcMz` against `obsMz` for every isotope offset in the
inclusive range `[lo, hi]`. -/
def deltaMassPpm (calcMz obsMz charge : ℚ) (lo hi : ℤ) : List ℚ :=
  (isotopeRange lo hi).map (fun (iso : ℤ) => calcMassError calcMz obsMz charge (iso : ℚ))

/-- The fit check of `_finish_beams` (line 446-449):
`any(abs(d) < self.precursor_mass_tol for d in delta_mass_ppm)`. -/
def fitsToleranceB (calcMz obsMz charge tol : ℚ) (lo hi : ℤ) : Bool :=
  (deltaMassPpm calcMz obsMz charge lo hi).any (fun d => decide (|d| < tol))

/-- The exceed check of `_finish_beams` (line 456-458):
`all(d > self.precursor_mass_tol for d in delta_mass_ppm)`. -/
def exceedsToleranceB (calcMz obsMz charge tol : ℚ) (lo hi : ℤ) : Bool :=
  (deltaMassPpm calcMz obsMz charge lo hi).all (fun d => decide (tol < d))

/-- Monoisotopic constants of the external `depthcharge.masses.PeptideMass`
calculator the source instantiates (`self.peptide_mass_calculator`):
hydrogen `1.007825035`. -/
def hydrogenMass : ℚ := 1007825035 / 10 ^ 9

/-- Oxygen monoisotopic mass `15.99491463` of the external calculator. -/
def oxygenMass : ℚ := 1599491463 / 10 ^ 8

/-- Proton mass `1.00727646688` of the external calculator. -/
def protonMass : ℚ := 100727646688 / 10 ^ 11

/-- Water mass `2 * hydrogen + oxygen` of the external calculator. -/
def waterMass : ℚ := 2 * hydrogenMass + oxygenMass

/-- Sum of the residue masses of a peptide; `none` when any token is absent
from the table (the Python `KeyError` raised by
`self.peptide_mass_calculator.mass`, caught in `_finish_beams` line 464). -/
def sumMasses (masses : Nat → Option ℚ) : List Nat → Option ℚ
  | [] => some 0
  | t :: ts => do
      let m ← masses t
      let s ← sumMasses masses ts
      pure (m + s)

/-- The m/z computed by the external `PeptideMass.mass(seq, charge)`:
`(sum of residue masses + H2O) / charge + proton`.  `none` models the
`KeyError` for an unrecognized token. -/
def calcMzOf (masses : Nat → Option ℚ) (pep : List Nat) (charge : ℚ) : Option ℚ :=
  (sumMasses masses pep).map (fun s => (s + waterMass) / charge + protonMass)

/-- The modification-placement discard of `_finish_beams` (lines 377-391) for
one beam row.  `row.getD j 0` models reading the zero-initialized token
tensor: positions never written hold the padding token `0`.
`multipleMods` is `torch.isin(tokens[dim0, final_pos], n_term) &
torch.isin(tokens[dim0, final_pos - 1], n_term)`; `internalMods` is the
broadcast `torch.isin(torch.where(mask, tokens, 0), n_term).any(dim=1)` with
`mask[j] = (final_pos - 1 >= j)`. -/
def modsDiscard (stopTok : Nat) (nTerm : List Nat) (row : List Nat) (step : Nat) : Bool :=
  if 1 < step then
    let endsStop := row.getD step 0 == stopTok
    let finalPos := if endsStop then step - 1 else step
    let multipleMods := nTerm.contains (row.getD finalPos 0)
        && nTerm.contains (row.getD (finalPos - 1) 0)
    let internalMods := (List.range row.length).any
        (fun j => nTerm.contains (if j ≤ finalPos - 1 then row.getD j 0 else 0))
    multipleMods || internalMods
  else false

/-- The modification-placement discard as the specification sentence behind
claim C3 words it: clause (b) fires only for a modification token at a
position *strictly before the final content position minus one*
(`j < finalPos - 1`), whereas the source masks `j <= finalPos - 1`.
This definition exists solely to compare the claim with `modsDiscard`. -/
def modsDiscardSpecC3 (stopTok : Nat) (nTerm : List Nat) (row : List Nat) (step : Nat) : Bool :=
  if 1 < step then
    let endsStop := row.getD step 0 == stopTok
    let finalPos := if endsStop then step - 1 else step
    let multipleMods := nTerm.contains (row.getD finalPos 0)
        && nTerm.contains (row.getD (finalPos - 1) 0)
    let internalMods := (List.range row.length).any
        (fun j => nTerm.contains (if j < finalPos - 1 then row.getD j 0 else 0))
    multipleMods || internalMods
  else false

/-- Stop-token stripping of `_finish_beams` (lines 402-408) and
`_cache_finished_beams` (lines 518-520): drop the final token when it is the
stop token.  In reverse decoding the source checks `peptide[0] == "$"` on the
`detokenize` output, which is the reversed token row, so both decode
directions strip exactly a trailing stop token of the raw row; the mass
computation downstream is order-independent. -/
def stripStopContent (stopTok : Nat) (predTokens : List Nat) : List Nat :=
  if predTokens.getLast? = some stopTok then predTokens.dropLast else predTokens

/-- Result of `_finish_beams` for one beam: the three boolean vector entries
`finished_beams[i]`, `beam_fits_precursor[i]`, `discarded_beams[i]`. -/
structure BeamOutcome where
  finished : Bool
  fits : Bool
  discarded : Bool
deriving DecidableEq

/-- One iteration of the `for aa in ...` loop of `_finish_beams`
(lines 421-465) evaluating a single variant `aa` (`none` is Python `None`,
`some t` a negative-mass residue appended to the candidate peptide).
Returns `(matches_precursor_mz, exceeds_precursor_mz)` as assigned in that
iteration; a failed mass lookup (`KeyError`) yields `(false, false)`. -/
def evalVariant (masses : Nat → Option ℚ) (content : List Nat) (finished0 : Bool)
    (charge precMz tol : ℚ) (lo hi : ℤ) (aa : Option Nat) : Bool × Bool :=
  match calcMzOf masses (content ++ aa.toList) charge with
  | none => (false, false)
  | some mz =>
      let ds := deltaMassPpm mz precMz charge lo hi
      let m := aa.isNone && ds.any (fun d => decide (|d| < tol))
      let e := if m then false
               else (finished0 || aa.isSome) && ds.all (fun d => decide (tol < d))
      (m, e)

/-- The `for aa in [None] if finished_beams[i] else aa_neg_mass` loop of
`_finish_beams` with its `break` on `matches_precursor_mz or
exceeds_precursor_mz`; the returned pair is the loop-final
`(matches_precursor_mz, exceeds_precursor_mz)`. -/
def massLoop (masses : Nat → Option ℚ) (content : List Nat) (finished0 : Bool)
    (charge precMz tol : ℚ) (lo hi : ℤ) : List (Option Nat) → Bool × Bool
  | [] => (false, false)
  | aa :: rest =>
      let r := evalVariant masses content finished0 charge precMz tol lo hi aa
      if r.1 || r.2 then r
      else massLoop masses content finished0 charge precMz tol lo hi rest

/-- `_finish_beams` restricted to a single beam row (lines 360-474): the
stop-token and padding-token checks, the modification-placement discard, the
minimum-length discard, and the precursor-mass evaluation, combined exactly
as in the source.  `negMass` is `aa_neg_mass` without its leading `None`;
`nTerm` is the set of N-terminal-modification token ids. -/
def finishBeam (masses : Nat → Option ℚ) (negMass nTerm : List Nat)
    (stopTok minLen : Nat) (tol : ℚ) (lo hi : ℤ)
    (row : List Nat) (charge precMz : ℚ) (step : Nat) : BeamOutcome :=
  let finished0 := row.getD step 0 == stopTok
  let discard0 := (row.getD step 0 == 0) || modsDiscard stopTok nTerm row step
  if discard0 then ⟨finished0, false, true⟩
  else
    let predTokens := (List.range (step + 1)).map (fun j => row.getD j 0)
    let content := stripStopContent stopTok predTokens
    if finished0 && decide (content.length < minLen) then ⟨finished0, false, true⟩
    else
      let aaList := if finished0 then [none] else none :: negMass.map some
      let r := massLoop masses content finished0 charge precMz tol lo hi aaList
      if finished0 then ⟨true, r.1, false⟩
      else if r.2 then ⟨true, r.1, false⟩
      else ⟨false, false, false⟩

end Casanovo

namespace Casanovo

/-- Mean of a list of rationals, `np.mean`. -/
def listMean (xs : List ℚ) : ℚ := xs.sum / (xs.length : ℚ)

/-- Embedding of `_aa_pep_score` (lines 1086-1114): the peptide score is the
mean of the raw amino-acid scores, the amino-acid scores are averaged with
that (unpenalized) mean, and only afterwards is the peptide score reduced by
`1` when the precursor m/z filter fails. -/
def aaPepScore (aaScores : List ℚ) (fitsPrecursorMz : Bool) : List ℚ × ℚ :=
  let peptideScore := listMean aaScores
  (aaScores.map (fun x => (x + peptideScore) / 2),
    if fitsPrecursorMz then peptideScore else peptideScore - 1)

/-- The score update as the specification sentences behind claim C1 order
it: the `-1.0` penalty is applied to the peptide score first and the
per-residue averaging then uses the already-penalized score.  This
definition exists solely to compare the claim with `aaPepScore`. -/
def aaPepScoreSpecC1 (aaScores : List ℚ) (fitsPrecursorMz : Bool) : List ℚ × ℚ :=
  let p0 := listMean aaScores
  let p := if fitsPrecursorMz then p0 else p0 - 1
  (aaScores.map (fun x => (x + p) / 2), p)

/-- A cached finished candidate: the tuple
`(peptide_score, aa_scores, pred_peptide)` stored by
`_cache_finished_beams` (line 547-550). -/
structure Entry where
  score : ℚ
  aaScores : List ℚ
  tokens : List Nat
deriving DecidableEq

/-- Construction of the cached tuple in `_cache_finished_beams`
(lines 517-540): strip a trailing stop token from the predicted tokens,
append an explicit raw score `0` for the stop slot when no stop token was
predicted, run `_aa_pep_score`, and drop the stop slot from the resulting
amino-acid scores.  `aaRaw` stands for the softmax-normalized score of the
chosen token at each of the `step + 1` decoded positions (the softmid
values `smx[0, range(len(pred_tokens)), pred_tokens]`); the softmax itself
is an external Torch operation and enters the model as this input list. -/
def buildEntry (stopTok : Nat) (predTokens : List Nat) (aaRaw : List ℚ)
    (fits : Bool) : Entry :=
  let hasStop : Bool := predTokens.getLast? == some stopTok
  let predPeptide := if hasStop then predTokens.dropLast else predTokens
  let raw := if hasStop then aaRaw else aaRaw ++ [0]
  let r := aaPepScore raw fits
  ⟨r.2, r.1.dropLast, predPeptide⟩

/-- Python `<` on lists of rationals (tuple/array lexicographic order).
Python's comparison of the cached NumPy arrays is only well defined when the
score components differ or the arrays have a single element; on those inputs
this lexicographic order agrees with it. -/
def ltListQ : List ℚ → List ℚ → Bool
  | [], [] => false
  | [], _ :: _ => true
  | _ :: _, [] => false
  | x :: xs, y :: ys =>
      if x < y then true else if y < x then false else ltListQ xs ys

/-- Python `<` on lists of naturals (token tensors), lexicographic. -/
def ltListN : List Nat → List Nat → Bool
  | [], [] => false
  | [], _ :: _ => true
  | _ :: _, [] => false
  | x :: xs, y :: ys =>
      if x < y then true else if y < x then false else ltListN xs ys

/-- Python `<` on the cached tuples `(peptide_score, aa_scores, tokens)`:
lexicographic by score, then amino-acid scores, then tokens. -/
def pyLtEntry (e1 e2 : Entry) : Bool :=
  if e1.score < e2.score then true
  else if e2.score < e1.score then false
  else if ltListQ e1.aaScores e2.aaScores then true
  else if ltListQ e2.aaScores e1.aaScores then false
  else ltListN e1.tokens e2.tokens

/-- The minimum element `heap[0]` of the Python `heapq` min-heap, modelled
on the element multiset (earliest minimal element). -/
def heapMinE : List Entry → Option Entry
  | [] => none
  | e :: es =>
      match heapMinE es with
      | none => some e
      | some m => if pyLtEntry m e then some m else some e

/-- `heapq.heappush`, modelled on the element multiset. -/
def heapPush (cache : List Entry) (e : Entry) : List Entry := cache ++ [e]

/-- `heapq.heappushpop`: push `e` then pop the minimum.  Equivalently: if
the heap is empty or its minimum is not below `e`, the heap is unchanged
(`e` itself is popped); otherwise the minimum is replaced by `e`.
Modelled on the element multiset. -/
def heapPushPop (cache : List Entry) (e : Entry) : List Entry :=
  match heapMinE cache with
  | none => []
  | some m => if pyLtEntry m e then (cache.erase m) ++ [e] else cache

/-- The admission step of `_cache_finished_beams` (lines 521-550) for one
offered candidate of one spectrum: skip when an identical token sequence is
already cached, `heappush` while the cache holds fewer than `n_beams`
entries, `heappushpop` otherwise. -/
def cacheStep (nBeams : Nat) (cache : List Entry) (e : Entry) : List Entry :=
  if cache.any (fun c => c.tokens == e.tokens) then cache
  else if cache.length < nBeams then heapPush cache e
  else heapPushPop cache e

/-- `_cache_finished_beams` for one finished-and-not-discarded beam of one
spectrum: build the candidate tuple and admit it. -/
def cacheFinishedBeam (nBeams stopTok : Nat) (cache : List Entry)
    (predTokens : List Nat) (aaRaw : List ℚ) (fits : Bool) : List Entry :=
  cacheStep nBeams cache (buildEntry stopTok predTokens aaRaw fits)

/-- A spectrum's cache after a whole decode run: the fold of
`cacheFinishedBeam` over the finished beams offered so far, starting from
the empty cache created in `beam_search_decode` (line 255). -/
def cacheRun (nBeams stopTok : Nat) (offers : List (List Nat × List ℚ × Bool)) : List Entry :=
  offers.foldl (fun cache o => cacheFinishedBeam nBeams stopTok cache o.1 o.2.1 o.2.2) []

end Casanovo

namespace Casanovo

/-- Insert `e` into a descending-sorted list: `e` goes before the first
element below it (CPython's stable descending sort places later-arriving
equal elements after earlier ones). -/
def insertByDesc {α : Type} (lt : α → α → Bool) (e : α) : List α → List α
  | [] => [e]
  | x :: xs => if lt x e then e :: x :: xs else x :: insertByDesc lt e xs

/-- Stable descending sort by the strict order `lt`. -/
def sortByDesc {α : Type} (lt : α → α → Bool) (l : List α) : List α :=
  l.foldl (fun acc x => insertByDesc lt x acc) []

/-- `heapq.nlargest(n, peptides)`: the `n` largest entries in descending
order — per the CPython documentation, equivalent to
`sorted(iterable, reverse=True)[:n]`. -/
def nlargestPy (n : Nat) (l : List Entry) : List Entry :=
  (sortByDesc pyLtEntry l).take n

/-- `_get_top_peptide` (lines 645-679) for one spectrum: the empty list for
an empty cache, otherwise `heapq.nlargest(self.top_match, peptides)`. -/
def getTopPeptide (topMatch : Nat) (cache : List Entry) : List Entry :=
  if cache.isEmpty then [] else nlargestPy topMatch cache

end Casanovo

namespace Casanovo

/-- Entry `l` of the column `(v, s)` of the `step_scores` tensor built by
`_get_topk_beams` (lines 598-616): positions before `step` hold the source
beam's recorded score of its own token (`prev_scores`, the gather of
lines 602-607), position `step` holds the fresh score of vocabulary token
`v` for beam `s`, and `none` is the `nan` fill. -/
def stepScoreAt (tokens : Nat → Nat → Nat) (scores : Nat → Nat → Nat → Option ℚ)
    (step v s l : Nat) : Option ℚ :=
  if l < step then scores s l (tokens s l)
  else if l = step then scores s step v
  else none

/-- Torch `nanmean`: the mean of the non-`nan` entries, `none` when every
entry is `nan`. -/
def nanMean (xs : List (Option ℚ)) : Option ℚ :=
  let vs := xs.filterMap id
  if vs.isEmpty then none else some (vs.sum / (vs.length : ℚ))

/-- `step_scores.nanmean(dim=1)` for the column `(v, s)`: the nan-aware mean
over the `step + 1` positions. -/
def colNanMean (tokens : Nat → Nat → Nat) (scores : Nat → Nat → Nat → Option ℚ)
    (step v s : Nat) : Option ℚ :=
  nanMean ((List.range (step + 1)).map (stepScoreAt tokens scores step v s))

/-- The `active_mask` entry of `_get_topk_beams` (lines 618-625) for the
column of vocabulary token `v` and source beam `s`: `1e-8` on the padding
columns (`active_mask[:, :beam] = 1e-8`, overwriting both active and
finished beams), `0` on other columns of finished beams, `1` otherwise. -/
def maskVal (finished : Nat → Bool) (v s : Nat) : ℚ :=
  if v = 0 then 1 / 10 ^ 8 else if finished s then 0 else 1

/-- The quantity ranked by `torch.topk` (line 628):
`step_scores.nanmean(dim=1) * active_mask` at flat column
`col = v * S + s` (NumPy row-major `unravel_index` with shape
`(vocab, beam)`). -/
def maskedScore (tokens : Nat → Nat → Nat) (scores : Nat → Nat → Nat → Option ℚ)
    (finished : Nat → Bool) (S step : Nat) (col : Nat) : Option ℚ :=
  (colNanMean tokens scores step (col / S) (col % S)).map
    (fun q => q * maskVal finished (col / S) (col % S))

/-- Order on optional scores used to rank columns: `nan` (`none`) sorts
above every number, matching `torch.topk` treating `nan` as largest. -/
def optLtQ : Option ℚ → Option ℚ → Bool
  | some a, some b => decide (a < b)
  | some _, none => true
  | none, _ => false

/-- `torch.topk(step_scores.nanmean(dim=1) * active_mask, beam)` for one
spectrum: the `k` flat column indices of largest masked score (ties kept in
index order). -/
def topkCols (ms : Nat → Option ℚ) (n k : Nat) : List Nat :=
  (sortByDesc (fun a b => optLtQ (ms a) (ms b)) (List.range n)).take k

/-- The token rows produced by `_get_topk_beams` (lines 627-643) for one
spectrum: new beam slot `j` receives the first `step` tokens of source beam
`s_idx = col % S` followed by vocabulary token `v_idx = col / S`, where
`col` is the `j`-th selected column.  Positions beyond `step` of the token
tensor are unwritten and stay at the padding value. -/
def getTopkTokens (tokens : Nat → Nat → Nat) (scores : Nat → Nat → Nat → Option ℚ)
    (finished : Nat → Bool) (S V step : Nat) : Nat → List Nat :=
  fun j =>
    match (topkCols (maskedScore tokens scores finished S step) (V * S) S)[j]? with
    | none => []
    | some col => ((List.range step).map (tokens (col % S))) ++ [col / S]

/-- Pointwise order on optional scores with `nan` (`none`) greatest. -/
def optLeP : Option ℚ → Option ℚ → Prop
  | some a, some b => a ≤ b
  | some _, none => True
  | none, some _ => False
  | none, none => True

end Casanovo

namespace Casanovo

/-- Concrete residue table for evaluations: token `1` has mass `100`,
token `4` is a negative-mass residue of mass `-5`, everything else is
absent. -/
def exMasses : Nat → Option ℚ :=
  fun t => if t = 1 then some 100 else if t = 4 then some (-5) else none

/-- Concrete residue table with a gap: only token `1` is known. -/
def exMassesGap : Nat → Option ℚ :=
  fun t => if t = 1 then some 100 else none

/-- Concrete one-beam token tensor for the continuation-selection instance:
beam `0` emitted token `1` at position `0`. -/
def exTokens : Nat → Nat → Nat := fun _ l => if l = 0 then 1 else 0

/-- Concrete score tensor for the continuation-selection instance: every
vocabulary token scored `-1` at position `0`; at position `1` the padding
token `0` scores `3` and the genuine tokens score `-1`. -/
def exScores : Nat → Nat → Nat → Option ℚ :=
  fun _ l v =>
    if l = 0 then some (-1)
    else if l = 1 then (if v = 0 then some 3 else some (-1))
    else none

end Casanovo

namespace Casanovo

/-- Claim C4: the fit check holds exactly when some isotope offset in the
inclusive range `[lo, hi]` puts the absolute ppm mass error strictly below
the tolerance, and the exceed check holds exactly when every isotope offset
in `[lo, hi]` puts the signed ppm mass error strictly above the tolerance
(one-sided, over-mass only). -/
theorem c4_tolerance_checks (calcMz obsMz charge tol : ℚ) (lo hi : ℤ) :
    (fitsToleranceB calcMz obsMz charge tol lo hi = true ↔
      ∃ iso : ℤ, lo ≤ iso ∧ iso ≤ hi ∧
        |calcMassError calcMz obsMz charge (iso : ℚ)| < tol)
    ∧ (exceedsToleranceB calcMz obsMz charge tol lo hi = true ↔
      ∀ iso : ℤ, lo ≤ iso → iso ≤ hi →
        tol < calcMassError calcMz obsMz charge (iso : ℚ)) := by
  have hmem : ∀ iso : ℤ, iso ∈ isotopeRange lo hi ↔ lo ≤ iso ∧ iso ≤ hi := by
    intro iso
    unfold isotopeRange
    rw [List.mem_map]
    constructor
    · rintro ⟨n, hn, rfl⟩
      rw [List.mem_range] at hn
      omega
    · intro h
      refine ⟨(iso - lo).toNat, ?_, ?_⟩
      · rw [List.mem_range]; omega
      · omega
  constructor
  · constructor
    · intro h
      rw [fitsToleranceB, List.any_eq_true] at h
      obtain ⟨d, hd, hlt⟩ := h
      rw [deltaMassPpm, List.mem_map] at hd
      obtain ⟨iso, hiso, rfl⟩ := hd
      rw [decide_eq_true_eq] at hlt
      exact ⟨iso, ((hmem iso).mp hiso).1, ((hmem iso).mp hiso).2, hlt⟩
    · rintro ⟨iso, h1, h2, h⟩
      rw [fitsToleranceB, List.any_eq_true]
      refine ⟨calcMassError calcMz obsMz charge (iso : ℚ), ?_, by simpa using h⟩
      rw [deltaMassPpm, List.mem_map]
      exact ⟨iso, (hmem iso).mpr ⟨h1, h2⟩, rfl⟩
  · constructor
    · intro h iso h1 h2
      rw [exceedsToleranceB, List.all_eq_true] at h
      have hm : calcMassError calcMz obsMz charge (iso : ℚ)
          ∈ deltaMassPpm calcMz obsMz charge lo hi := by
        rw [deltaMassPpm, List.mem_map]
        exact ⟨iso, (hmem iso).mpr ⟨h1, h2⟩, rfl⟩
      simpa using h _ hm
    · intro h
      rw [exceedsToleranceB, List.all_eq_true]
      intro d hd
      rw [deltaMassPpm, List.mem_map] at hd
      obtain ⟨iso, hiso, rfl⟩ := hd
      rw [decide_eq_true_eq]
      exact h iso ((hmem iso).mp hiso).1 ((hmem iso).mp hiso).2

/-- Claim C4 witness: concrete use of the characterizations. -/
theorem c4_witness :
    fitsToleranceB 100 100 1 50 0 1 = true ∧
    exceedsToleranceB 319 100 1 50 0 1 = true :=
  ⟨((c4_tolerance_checks 100 100 1 50 0 1).1).mpr
      ⟨0, by norm_num, by norm_num, by norm_num [calcMassError]⟩,
    ((c4_tolerance_checks 319 100 1 50 0 1).2).mpr
      (by
        intro iso h1 h2
        interval_cases iso <;> norm_num [calcMassError])⟩

/-- Claim C5: the mass-error function computes
`(calc - (obs - iso * 1.00335 / charge)) / obs * 1e6`; it returns exactly
`0` at `(100, 100, 1, 0)` and exactly `10` ppm at `(100.001, 100, 1, 0)`
(the float result is approximately `10.0`). -/
theorem c5_mass_error (calcMz obsMz charge iso : ℚ) :
    calcMassError calcMz obsMz charge iso
        = (calcMz - (obsMz - iso * (100335 / 100000) / charge)) / obsMz * 10 ^ 6
    ∧ calcMassError 100 100 1 0 = 0
    ∧ calcMassError (100001 / 1000) 100 1 0 = 10 := by
  refine ⟨rfl, by norm_num [calcMassError], by norm_num [calcMassError]⟩

/-- The combined multiple-modification and internal-modification test of
`modsDiscard` collapses to a single bound: some N-terminal-modification
token occurs at or before `finalPos - 1` (assuming the padding token `0` is
not a modification token). -/
theorem modsCore (nTerm row : List Nat) (fp : Nat) (h0 : (0 : Nat) ∉ nTerm) :
    (nTerm.contains (row.getD fp 0) && nTerm.contains (row.getD (fp - 1) 0)
      || (List.range row.length).any
          (fun j => nTerm.contains (if j ≤ fp - 1 then row.getD j 0 else 0))) = true
    ↔ ∃ j, j ≤ fp - 1 ∧ row.getD j 0 ∈ nTerm := by
  simp only [Bool.or_eq_true, Bool.and_eq_true, List.any_eq_true, List.mem_range,
    List.elem_iff]
  constructor
  · rintro (⟨hfp, hprev⟩ | ⟨j, hj, hmemb⟩)
    · exact ⟨fp - 1, le_rfl, hprev⟩
    · by_cases hle : j ≤ fp - 1
      · rw [if_pos hle] at hmemb
        exact ⟨j, hle, hmemb⟩
      · rw [if_neg hle] at hmemb
        exact absurd hmemb h0
  · rintro ⟨j, hj, hmemb⟩
    right
    have hjlen : j < row.length := by
      by_contra hge
      rw [List.getD_eq_default _ _ (by omega)] at hmemb
      exact h0 hmemb
    exact ⟨j, hjlen, by rw [if_pos hj]; exact hmemb⟩

/-- Claim C3 counterexample: at step `2`, with N-terminal-modification token
`7`, stop token `9`, and token row `[1, 7, 1]` (no stop emitted, so the
final content position is `2`), the source discards the beam — the
modification at position `1 = finalPos - 1` trips the internal-modification
mask `j <= finalPos - 1` — while the claim's condition (both clause (a) and
clause (b) with its strict `j < finalPos - 1` bound) does not discard. -/
theorem c3_counterexample :
    modsDiscard 9 [7] [1, 7, 1] 2 = true
    ∧ modsDiscardSpecC3 9 [7] [1, 7, 1] 2 = false := by
  constructor <;> decide

/-- Claim C3 amended: for `step <= 1` the modification-placement check never
fires; for `step > 1` the beam is discarded by it exactly when some
N-terminal-modification token occurs at a position *at or before* the final
content position minus one (equivalently, strictly before the final content
position); clause (a) of the claim is subsumed by this bound. -/
theorem c3_amended (stopTok : Nat) (nTerm : List Nat) (row : List Nat) (step : Nat)
    (h0 : (0 : Nat) ∉ nTerm) :
    (step ≤ 1 → modsDiscard stopTok nTerm row step = false)
    ∧ (1 < step →
        (modsDiscard stopTok nTerm row step = true ↔
          ∃ j, j ≤ (if row.getD step 0 = stopTok then step - 1 else step) - 1
            ∧ row.getD j 0 ∈ nTerm)) := by
  constructor
  · intro hle
    unfold modsDiscard
    rw [if_neg (by omega)]
  · intro hgt
    unfold modsDiscard
    rw [if_pos hgt]
    by_cases hstop : row.getD step 0 = stopTok
    · simp only [hstop, beq_self_eq_true, if_true, if_pos hstop]
      exact modsCore nTerm row (step - 1) h0
    · rw [if_neg hstop]
      have hbeq : (row.getD step 0 == stopTok) = false := beq_eq_false_iff_ne.mpr hstop
      simp only [hbeq, if_false]
      exact modsCore nTerm row step h0

/-- An absent token anywhere in a peptide makes the whole mass sum absent
(the `KeyError` of the Python mass calculator). -/
theorem sumMasses_eq_none (masses : Nat → Option ℚ) (pep : List Nat) (t : Nat)
    (ht : t ∈ pep) (hm : masses t = none) : sumMasses masses pep = none := by
  induction pep with
  | nil => cases ht
  | cons x xs ih =>
      rcases List.mem_cons.mp ht with rfl | hx
      · simp [sumMasses, hm]
      · rw [sumMasses]
        rw [ih hx]
        cases masses x <;> rfl

/-- When some token of the candidate peptide has no mass, every iteration of
the variant loop sets both flags false, so the loop returns
`(false, false)` whatever the variant list is. -/
theorem massLoop_eq_of_gap (masses : Nat → Option ℚ) (content : List Nat)
    (finished0 : Bool) (charge precMz tol : ℚ) (lo hi : ℤ) (t : Nat)
    (ht : t ∈ content) (hm : masses t = none) :
    ∀ aaList, massLoop masses content finished0 charge precMz tol lo hi aaList
      = (false, false) := by
  intro aaList
  induction aaList with
  | nil => rfl
  | cons aa rest ih =>
      have hev : evalVariant masses content finished0 charge precMz tol lo hi aa
          = (false, false) := by
        unfold evalVariant
        have hmz : calcMzOf masses (content ++ aa.toList) charge = none := by
          unfold calcMzOf
          rw [sumMasses_eq_none masses _ t (List.mem_append_left _ ht) hm]
          rfl
        rw [hmz]
      rw [massLoop, hev]
      simpa using ih

/-- Claim C9: a failed vocabulary mass lookup for a token of the candidate
peptide makes the precursor-mass evaluation indeterminate — the beam's
`beam_fits_precursor` entry is false, and a beam that had not already
finished (no stop token at this step) is not terminated by the evaluation.
The per-beam loop of `_finish_beams` treats each beam independently, so the
remaining beams are unaffected by construction. -/
theorem c9_lookup_failure (masses : Nat → Option ℚ) (negMass nTerm : List Nat)
    (stopTok minLen : Nat) (tol : ℚ) (lo hi : ℤ) (row : List Nat)
    (charge precMz : ℚ) (step : Nat)
    (ht : ∃ t ∈ stripStopContent stopTok
        ((List.range (step + 1)).map (fun j => row.getD j 0)), masses t = none) :
    (finishBeam masses negMass nTerm stopTok minLen tol lo hi row charge precMz step).fits
        = false
    ∧ (row.getD step 0 ≠ stopTok →
        (finishBeam masses negMass nTerm stopTok minLen tol lo hi row
            charge precMz step).finished = false) := by
  obtain ⟨t, htc, hm⟩ := ht
  have hloop := massLoop_eq_of_gap masses _ (row.getD step 0 == stopTok)
    charge precMz tol lo hi t htc hm
  constructor
  · unfold finishBeam
    simp only [hloop]
    split
    · rfl
    · split
      · rfl
      · split
        · rfl
        · split <;> rfl
  · intro hne
    have hfin : (row.getD step 0 == stopTok) = false := beq_eq_false_iff_ne.mpr hne
    unfold finishBeam
    simp only [hloop]
    simp only [hfin, Bool.false_and, Bool.false_eq_true, if_false]
    split <;> rfl

/-- Claim C9 witness: token `3` of the three-residue candidate `[1, 3, 1]`
is absent from the table `exMassesGap`; the beam (which did not emit a stop
token) gets `fits = false` and is not terminated. -/
theorem c9_witness :
    (finishBeam exMassesGap [] [] 9 6 50 0 1 [1, 3, 1] 1 100 2).fits = false
    ∧ ([1, 3, 1].getD 2 0 ≠ 9 →
        (finishBeam exMassesGap [] [] 9 6 50 0 1 [1, 3, 1] 1 100 2).finished = false) :=
  c9_lookup_failure exMassesGap [] [] 9 6 50 0 1 [1, 3, 1] 1 100 2
    ⟨3, by decide, by decide⟩

/-- Claim C2 counterexample: with `min_peptide_len = 6`, a three-residue
beam `[1, 1, 1]` (content length `3 < 6`, no stop token) whose mass exceeds
the precursor tolerance even after appending the negative-mass residue `4`
is force-finished by the precursor-mass evaluation with `fits = false` and
is *not* discarded; offering it to an empty cache admits it.  The claim
says a beam finished by the mass evaluation with content shorter than the
minimum is discarded and never cached. -/
theorem c2_counterexample :
    finishBeam exMasses [4] [] 9 6 50 0 1 [1, 1, 1] 1 100 2
      = ⟨true, false, false⟩
    ∧ (stripStopContent 9 [1, 1, 1]).length < 6
    ∧ cacheFinishedBeam 2 9 [] [1, 1, 1] [1/2, 1/2, 1/2] false ≠ [] := by
  refine ⟨?_, by decide, ?_⟩
  · norm_num [finishBeam, modsDiscard, stripStopContent, massLoop, evalVariant,
      calcMzOf, sumMasses, exMasses, deltaMassPpm, isotopeRange, calcMassError,
      waterMass, protonMass, hydrogenMass, oxygenMass, abs_lt,
      show List.range 3 = [0, 1, 2] from rfl,
      show ((1 : ℤ) + 1 - 0).toNat = 2 from rfl,
      show Int.toNat 2 = 2 from rfl,
      show List.range 2 = [0, 1] from rfl]
  · simp [cacheFinishedBeam, cacheStep, heapPush]

/-- Claim C2 amended: the minimum-length discard applies exactly to beams
finished by predicting the stop token — such a beam with content length
below `min_peptide_len` is discarded, fails the cache gate
`finished & ~discarded`, and is never cached.  A beam force-finished by the
precursor-mass evaluation bypasses the length check (see the
counterexample). -/
theorem c2_amended (masses : Nat → Option ℚ) (negMass nTerm : List Nat)
    (stopTok minLen : Nat) (tol : ℚ) (lo hi : ℤ) (row : List Nat)
    (charge precMz : ℚ) (step : Nat)
    (hstop : row.getD step 0 = stopTok) (hstop0 : stopTok ≠ 0)
    (hmods : modsDiscard stopTok nTerm row step = false)
    (hshort : (stripStopContent stopTok
        ((List.range (step + 1)).map (fun j => row.getD j 0))).length < minLen) :
    finishBeam masses negMass nTerm stopTok minLen tol lo hi row charge precMz step
      = ⟨true, false, true⟩
    ∧ ((finishBeam masses negMass nTerm stopTok minLen tol lo hi row charge
        precMz step).finished
      && !(finishBeam masses negMass nTerm stopTok minLen tol lo hi row charge
        precMz step).discarded) = false := by
  have hfin : (row.getD step 0 == stopTok) = true := by
    rw [hstop]
    exact beq_self_eq_true stopTok
  have hpad : (row.getD step 0 == 0) = false := by
    rw [hstop]
    exact beq_eq_false_iff_ne.mpr hstop0
  have hmain : finishBeam masses negMass nTerm stopTok minLen tol lo hi row
      charge precMz step = ⟨true, false, true⟩ := by
    unfold finishBeam
    simp only [hfin, hpad, hmods, Bool.or_false, Bool.false_or, Bool.true_and,
      if_false, Bool.false_eq_true, decide_eq_true_eq]
    rw [if_pos hshort]
  exact ⟨hmain, by rw [hmain]; rfl⟩

/-- Claim C2 witness: a beam that predicted the stop token at step `2` with
two-residue content under `min_peptide_len = 6` is discarded. -/
theorem c2_witness :
    finishBeam exMasses [4] [] 9 6 50 0 1 [1, 1, 9] 1 100 2 = ⟨true, false, true⟩
    ∧ ((finishBeam exMasses [4] [] 9 6 50 0 1 [1, 1, 9] 1 100 2).finished
      && !(finishBeam exMasses [4] [] 9 6 50 0 1 [1, 1, 9] 1 100 2).discarded)
        = false :=
  c2_amended exMasses [4] [] 9 6 50 0 1 [1, 1, 9] 1 100 2
    (by decide) (by decide) (by decide) (by decide)

/-- Claim C1 counterexample: beam `[1]` without a stop token, raw softmax
score `1` for its single position, `fits = false`.  The raw vector with the
appended stop slot is `[1, 0]` and its mean is `1/2`; the admitted
candidate's peptide score is `1/2 - 1 = -1/2` (as the claim says), but its
stored per-residue score is `(1 + 1/2) / 2 = 3/4`, averaged with the
*unpenalized* mean — the claim's already-penalized averaging would store
`(1 + (-1/2)) / 2 = 1/4`. -/
theorem c1_counterexample :
    (cacheFinishedBeam 2 9 [] [1] [1] false).map Entry.aaScores = [[3 / 4]]
    ∧ (cacheFinishedBeam 2 9 [] [1] [1] false).map Entry.score = [-(1 / 2)]
    ∧ ((aaPepScoreSpecC1 [1, 0] false).1).dropLast = [1 / 4]
    ∧ (3 / 4 : ℚ) ≠ 1 / 4 := by
  refine ⟨?_, ?_, ?_, by norm_num⟩ <;>
    norm_num [cacheFinishedBeam, cacheStep, heapPush, buildEntry, aaPepScore,
      aaPepScoreSpecC1, listMean]

/-- Claim C1 amended: for every candidate offered to the cache, with `raw`
the per-position scores extended by the explicit `0` stop slot when no stop
token was predicted, the peptide score is `mean raw` lowered by `1` exactly
when the precursor fit failed, while the stored per-residue scores average
`raw` with the *unpenalized* mean `mean raw` (not with the already-penalized
peptide score), the stop slot then dropped. -/
theorem c1_amended (stopTok : Nat) (predTokens : List Nat) (aaRaw : List ℚ)
    (fits : Bool) (raw : List ℚ)
    (hraw : raw = if predTokens.getLast? == some stopTok then aaRaw else aaRaw ++ [0]) :
    (buildEntry stopTok predTokens aaRaw fits).score
        = listMean raw - (if fits then 0 else 1)
    ∧ (buildEntry stopTok predTokens aaRaw fits).aaScores
        = (raw.map (fun x => (x + listMean raw) / 2)).dropLast := by
  subst hraw
  have hkey : ∀ raw2 : List ℚ,
      (if fits then listMean raw2 else listMean raw2 - 1)
        = listMean raw2 - (if fits then 0 else 1) := by
    intro raw2
    cases fits <;> simp
  unfold buildEntry aaPepScore
  cases hb : (predTokens.getLast? == some stopTok) <;>
    · simp only [hb, reduceIte]
      exact ⟨hkey _, trivial⟩

/-- Claim C1 witness: the amended description applied to the
single-residue beam of the counterexample. -/
theorem c1_witness :
    (buildEntry 9 [1] [1] false).score = listMean [1, 0] - (if false then 0 else 1)
    ∧ (buildEntry 9 [1] [1] false).aaScores
        = (([1, 0] : List ℚ).map (fun x => (x + listMean [1, 0]) / 2)).dropLast :=
  c1_amended 9 [1] [1] false [1, 0] rfl

/-- Claim C10: the candidate tuple admitted to the cache carries exactly one
per-residue score per stored token, in both finish modes: a predicted stop
token is stripped from tokens and its score slot dropped, and a mass-forced
finish appends an explicit `0` stop score that is dropped again after the
averaging. -/
theorem c10_entry_lengths (stopTok : Nat) (predTokens : List Nat) (aaRaw : List ℚ)
    (fits : Bool) (hlen : aaRaw.length = predTokens.length) :
    (buildEntry stopTok predTokens aaRaw fits).aaScores.length
      = (buildEntry stopTok predTokens aaRaw fits).tokens.length := by
  unfold buildEntry aaPepScore
  cases hb : (predTokens.getLast? == some stopTok) <;>
    simp [List.length_dropLast, hlen]

/-- Claim C10 witness: both finish modes at concrete inputs. -/
theorem c10_witness :
    (buildEntry 9 [1, 2, 9] [1/2, 1/3, 1/4] true).aaScores.length
        = (buildEntry 9 [1, 2, 9] [1/2, 1/3, 1/4] true).tokens.length
    ∧ (buildEntry 9 [1, 2, 3] [1/2, 1/3, 1/4] false).aaScores.length
        = (buildEntry 9 [1, 2, 3] [1/2, 1/3, 1/4] false).tokens.length :=
  ⟨c10_entry_lengths 9 [1, 2, 9] [1/2, 1/3, 1/4] true rfl,
    c10_entry_lengths 9 [1, 2, 3] [1/2, 1/3, 1/4] false rfl⟩

/-- The element returned as the heap minimum is an element of the heap. -/
theorem heapMinE_mem : ∀ (l : List Entry) (m : Entry), heapMinE l = some m → m ∈ l
  | [], _, hm => by cases hm
  | e :: es, m, hm => by
      rw [heapMinE] at hm
      cases hes : heapMinE es with
      | none =>
          rw [hes] at hm
          cases hm
          exact List.mem_cons_self e es
      | some m2 =>
          rw [hes] at hm
          have hm2 : (if pyLtEntry m2 e = true then some m2 else some e) = some m := hm
          by_cases hlt : pyLtEntry m2 e = true
          · rw [if_pos hlt] at hm2
            obtain rfl := Option.some.inj hm2
            exact List.mem_cons_of_mem e (heapMinE_mem es _ hes)
          · rw [if_neg hlt] at hm2
            obtain rfl := Option.some.inj hm2
            exact List.mem_cons_self _ _

/-- One admission step preserves the cache invariants: pairwise-distinct
token sequences and size bounded by `n_beams`. -/
theorem cacheStep_invariant (nBeams : Nat) (cache : List Entry) (e : Entry)
    (hdist : cache.Pairwise (fun a b => a.tokens ≠ b.tokens))
    (hlen : cache.length ≤ nBeams) :
    (cacheStep nBeams cache e).Pairwise (fun a b => a.tokens ≠ b.tokens)
    ∧ (cacheStep nBeams cache e).length ≤ nBeams := by
  unfold cacheStep
  by_cases hdup : cache.any (fun c => c.tokens == e.tokens) = true
  · rw [if_pos hdup]
    exact ⟨hdist, hlen⟩
  · rw [if_neg hdup]
    have hfresh : ∀ c ∈ cache, c.tokens ≠ e.tokens := by
      intro c hc hceq
      apply hdup
      rw [List.any_eq_true]
      exact ⟨c, hc, by rw [hceq]; exact beq_self_eq_true _⟩
    by_cases hsz : cache.length < nBeams
    · rw [if_pos hsz]
      constructor
      · rw [heapPush, List.pairwise_append]
        refine ⟨hdist, List.pairwise_singleton _ _, ?_⟩
        intro a ha b hb
        rw [List.mem_singleton] at hb
        subst hb
        exact hfresh a ha
      · rw [heapPush, List.length_append]
        simpa using hsz
    · rw [if_neg hsz]
      cases hmin : heapMinE cache with
      | none =>
          have heq : heapPushPop cache e = [] := by
            unfold heapPushPop
            rw [hmin]
          rw [heq]
          exact ⟨List.Pairwise.nil, by simp⟩
      | some m =>
          have heq : heapPushPop cache e
              = if pyLtEntry m e = true then cache.erase m ++ [e] else cache := by
            unfold heapPushPop
            rw [hmin]
          rw [heq]
          have hmem := heapMinE_mem cache m hmin
          have hpos : 1 ≤ cache.length := List.length_pos.mpr (List.ne_nil_of_mem hmem)
          by_cases hlt : pyLtEntry m e = true
          · rw [if_pos hlt]
            constructor
            · rw [List.pairwise_append]
              refine ⟨hdist.sublist (List.erase_sublist m cache),
                List.pairwise_singleton _ _, ?_⟩
              intro a ha b hb
              rw [List.mem_singleton] at hb
              subst hb
              exact hfresh a ((List.erase_sublist m cache).subset ha)
            · rw [List.length_append, List.length_erase_of_mem hmem]
              simp only [List.length_singleton]
              omega
          · rw [if_neg hlt]
            exact ⟨hdist, hlen⟩

/-- Claim C6: starting from the empty cache, after any sequence of offered
finished beams the cache holds at most `n_beams` candidates with
pairwise-distinct stop-stripped token sequences; and offering a candidate
whose token sequence is already cached leaves the cache unchanged — the
earliest-inserted copy wins and the later duplicate is dropped. -/
theorem c6_cache_invariants (nBeams stopTok : Nat)
    (offers : List (List Nat × List ℚ × Bool)) :
    (cacheRun nBeams stopTok offers).length ≤ nBeams
    ∧ (cacheRun nBeams stopTok offers).Pairwise (fun a b => a.tokens ≠ b.tokens)
    ∧ (∀ (cache : List Entry) (e : Entry), (∃ c ∈ cache, c.tokens = e.tokens) →
        cacheStep nBeams cache e = cache) := by
  have haux : ∀ (os : List (List Nat × List ℚ × Bool)) (cache : List Entry),
      cache.Pairwise (fun a b => a.tokens ≠ b.tokens) → cache.length ≤ nBeams →
      ((os.foldl (fun c o => cacheFinishedBeam nBeams stopTok c o.1 o.2.1 o.2.2)
          cache).Pairwise (fun a b => a.tokens ≠ b.tokens)
        ∧ (os.foldl (fun c o => cacheFinishedBeam nBeams stopTok c o.1 o.2.1 o.2.2)
            cache).length ≤ nBeams) := by
    intro os
    induction os with
    | nil => intro cache h1 h2; exact ⟨h1, h2⟩
    | cons o rest ih =>
        intro cache h1 h2
        rw [List.foldl_cons]
        have hstep := cacheStep_invariant nBeams cache
          (buildEntry stopTok o.1 o.2.1 o.2.2) h1 h2
        exact ih _ hstep.1 hstep.2
  have hrun := haux offers [] List.Pairwise.nil (by simp)
  refine ⟨hrun.2, hrun.1, ?_⟩
  rintro cache e ⟨c, hc, hteq⟩
  unfold cacheStep
  rw [if_pos]
  rw [List.any_eq_true]
  exact ⟨c, hc, by rw [hteq]; exact beq_self_eq_true _⟩

/-- Claim C6 witness: a two-offer run under `n_beams = 1`, and a duplicate
token sequence dropped in favor of the cached copy. -/
theorem c6_witness :
    (cacheRun 1 9 [([1, 9], [1/2, 1/2], true), ([2, 9], [1/3, 1/3], true)]).length ≤ 1
    ∧ (cacheRun 1 9 [([1, 9], [1/2, 1/2], true),
        ([2, 9], [1/3, 1/3], true)]).Pairwise (fun a b => a.tokens ≠ b.tokens)
    ∧ cacheStep 1 [⟨1, [1/2], [3]⟩] ⟨2, [1/3], [3]⟩ = [⟨1, [1/2], [3]⟩] := by
  have h := c6_cache_invariants 1 9
    [([1, 9], [1/2, 1/2], true), ([2, 9], [1/3, 1/3], true)]
  exact ⟨h.1, h.2.1,
    h.2.2 [⟨1, [1/2], [3]⟩] ⟨2, [1/3], [3]⟩
      ⟨⟨1, [1/2], [3]⟩, List.mem_singleton.mpr rfl, rfl⟩⟩

/-- Membership in an insertion: the inserted element or an original one. -/
theorem mem_insertByDesc {α : Type} (lt : α → α → Bool) (e x : α) :
    ∀ l : List α, x ∈ insertByDesc lt e l ↔ x = e ∨ x ∈ l
  | [] => by simp [insertByDesc]
  | y :: ys => by
      rw [insertByDesc]
      by_cases h : lt y e = true
      · rw [if_pos h]
        simp [List.mem_cons]
      · rw [if_neg h]
        rw [List.mem_cons, mem_insertByDesc lt e x ys, List.mem_cons]
        tauto

/-- Inserting permutes to consing. -/
theorem insertByDesc_perm {α : Type} (lt : α → α → Bool) (e : α) :
    ∀ l : List α, List.Perm (insertByDesc lt e l) (e :: l)
  | [] => List.Perm.refl _
  | y :: ys => by
      rw [insertByDesc]
      by_cases h : lt y e = true
      · rw [if_pos h]
      · rw [if_neg h]
        exact (List.Perm.cons y (insertByDesc_perm lt e ys)).trans
          (List.Perm.swap e y ys)

/-- The descending sort permutes its input. -/
theorem sortByDesc_perm {α : Type} (lt : α → α → Bool) (l : List α) :
    List.Perm (sortByDesc lt l) l := by
  suffices h : ∀ (l2 acc : List α),
      List.Perm (l2.foldl (fun acc2 x => insertByDesc lt x acc2) acc) (acc ++ l2) by
    simpa using h l []
  intro l2
  induction l2 with
  | nil => intro acc; simp
  | cons x xs ih =>
      intro acc
      rw [List.foldl_cons]
      exact (ih _).trans
        (((insertByDesc_perm lt x acc).append_right xs).trans List.perm_middle.symm)

/-- Inserting preserves pairwise descent for any relation compatible with
the Boolean order. -/
theorem insertByDesc_pairwise {α : Type} (lt : α → α → Bool) (R : α → α → Prop)
    (h1 : ∀ x y, lt x y = false → R x y)
    (h2 : ∀ x y, lt x y = true → R y x)
    (h3 : Transitive R) (e : α) :
    ∀ l : List α, l.Pairwise R → (insertByDesc lt e l).Pairwise R
  | [], _ => by simp [insertByDesc]
  | x :: xs, hl => by
      obtain ⟨hx, hxs⟩ := List.pairwise_cons.mp hl
      rw [insertByDesc]
      by_cases h : lt x e = true
      · rw [if_pos h]
        refine List.pairwise_cons.mpr ⟨?_, hl⟩
        intro y hy
        rcases List.mem_cons.mp hy with rfl | hy2
        · exact h2 _ _ h
        · exact h3 (h2 _ _ h) (hx y hy2)
      · rw [if_neg h]
        refine List.pairwise_cons.mpr
          ⟨?_, insertByDesc_pairwise lt R h1 h2 h3 e xs hxs⟩
        intro y hy
        rcases (mem_insertByDesc lt e y xs).mp hy with rfl | hy2
        · exact h1 _ _ (by simpa using h)
        · exact hx y hy2

/-- The descending sort is pairwise-descending for any relation compatible
with the Boolean order. -/
theorem sortByDesc_pairwise {α : Type} (lt : α → α → Bool) (R : α → α → Prop)
    (h1 : ∀ x y, lt x y = false → R x y)
    (h2 : ∀ x y, lt x y = true → R y x)
    (h3 : Transitive R) (l : List α) :
    (sortByDesc lt l).Pairwise R := by
  suffices h : ∀ (l2 acc : List α), acc.Pairwise R →
      (l2.foldl (fun acc2 x => insertByDesc lt x acc2) acc).Pairwise R from
    h l [] List.Pairwise.nil
  intro l2
  induction l2 with
  | nil => intro acc hacc; exact hacc
  | cons x xs ih =>
      intro acc hacc
      rw [List.foldl_cons]
      exact ih _ (insertByDesc_pairwise lt R h1 h2 h3 x acc hacc)

/-- Every element kept by the sorted-take dominates every element of the
drop, for any relation compatible with the Boolean order. -/
theorem take_ge_drop {α : Type} (lt : α → α → Bool) (R : α → α → Prop)
    (h1 : ∀ x y, lt x y = false → R x y)
    (h2 : ∀ x y, lt x y = true → R y x)
    (h3 : Transitive R) (l : List α) (k : Nat) (x y : α)
    (hx : x ∈ (sortByDesc lt l).take k) (hy : y ∈ (sortByDesc lt l).drop k) :
    R x y := by
  have hp := sortByDesc_pairwise lt R h1 h2 h3 l
  rw [← List.take_append_drop k (sortByDesc lt l), List.pairwise_append] at hp
  exact hp.2.2 x hx y hy

/-- When the tuple comparison says `not less`, the score components satisfy
`greater or equal` (the score is the first lexicographic component). -/
theorem pyLtEntry_false_score {e1 e2 : Entry} (h : pyLtEntry e1 e2 = false) :
    e2.score ≤ e1.score := by
  by_contra hgt
  push_neg at hgt
  rw [pyLtEntry, if_pos hgt] at h
  exact Bool.noConfusion h

/-- When the tuple comparison says `less`, the score components satisfy
`less or equal`. -/
theorem pyLtEntry_true_score {e1 e2 : Entry} (h : pyLtEntry e1 e2 = true) :
    e1.score ≤ e2.score := by
  by_cases h1 : e1.score < e2.score
  · exact le_of_lt h1
  · by_cases h2 : e2.score < e1.score
    · rw [pyLtEntry, if_neg h1, if_pos h2] at h
      exact Bool.noConfusion h
    · exact le_of_not_lt h2

/-- Claim C7 counterexample: two cached candidates with equal peptide score
`1`, inserted in the order shown.  The emitted list orders them by the
Python comparison of the stored per-residue score arrays (`3/10` above
`1/5`), not by cache insertion order, so the first-inserted candidate comes
second. -/
theorem c7_counterexample :
    getTopPeptide 2 [⟨1, [1/5], [5]⟩, ⟨1, [3/10], [7]⟩]
      ≠ [⟨1, [1/5], [5]⟩, ⟨1, [3/10], [7]⟩]
    ∧ getTopPeptide 2 [⟨1, [1/5], [5]⟩, ⟨1, [3/10], [7]⟩]
      = [⟨1, [3/10], [7]⟩, ⟨1, [1/5], [5]⟩] := by
  have heval : getTopPeptide 2 [⟨1, [1/5], [5]⟩, ⟨1, [3/10], [7]⟩]
      = [⟨1, [3/10], [7]⟩, ⟨1, [1/5], [5]⟩] := by
    norm_num [getTopPeptide, nlargestPy, sortByDesc, insertByDesc, pyLtEntry,
      ltListQ, ltListN]
  refine ⟨?_, heval⟩
  rw [heval]
  simp

/-- Claim C7 amended: for every spectrum the emitted prediction list has
length at most `top_match` and is empty when the cache is empty; when the
cached peptide scores are pairwise distinct (where the Python tuple
comparison is well defined and reduces to the score) the list is sorted by
strictly decreasing peptide score.  Candidates with equal scores are ordered
by comparison of the stored arrays — see the counterexample — not by cache
insertion order. -/
theorem c7_amended (topMatch : Nat) (cache : List Entry)
    (hdist : cache.Pairwise (fun a b => a.score ≠ b.score)) :
    (getTopPeptide topMatch cache).length ≤ topMatch
    ∧ (getTopPeptide topMatch cache).Pairwise (fun a b => b.score < a.score)
    ∧ (cache = [] → getTopPeptide topMatch cache = []) := by
  refine ⟨?_, ?_, ?_⟩
  · unfold getTopPeptide nlargestPy
    by_cases hc : cache.isEmpty = true
    · rw [if_pos hc]
      simp
    · rw [if_neg hc]
      exact List.length_take_le _ _
  · have hle : (sortByDesc pyLtEntry cache).Pairwise
        (fun a b : Entry => b.score ≤ a.score) :=
      sortByDesc_pairwise pyLtEntry (fun a b : Entry => b.score ≤ a.score)
        (fun _ _ h => pyLtEntry_false_score h)
        (fun _ _ h => pyLtEntry_true_score h)
        (fun _ _ _ hab hbc => hbc.trans hab) cache
    have hne : (sortByDesc pyLtEntry cache).Pairwise
        (fun a b : Entry => a.score ≠ b.score) :=
      ((sortByDesc_perm pyLtEntry cache).pairwise_iff
        (fun h => Ne.symm h)).mpr hdist
    have hcomb : (sortByDesc pyLtEntry cache).Pairwise
        (fun a b : Entry => b.score < a.score) :=
      (hle.and hne).imp (fun h => lt_of_le_of_ne h.1 (Ne.symm h.2))
    unfold getTopPeptide nlargestPy
    by_cases hc : cache.isEmpty = true
    · rw [if_pos hc]
      exact List.Pairwise.nil
    · rw [if_neg hc]
      exact hcomb.sublist (List.take_sublist _ _)
  · intro hc
    subst hc
    rfl

/-- Claim C7 witness: a two-candidate cache with distinct scores under
`top_match = 1`. -/
theorem c7_witness :
    (getTopPeptide 1 [⟨2, [1/2], [5]⟩, ⟨1, [1/3], [7]⟩]).length ≤ 1
    ∧ (getTopPeptide 1 [⟨2, [1/2], [5]⟩, ⟨1, [1/3], [7]⟩]).Pairwise
        (fun a b => b.score < a.score)
    ∧ (([⟨2, [1/2], [5]⟩, ⟨1, [1/3], [7]⟩] : List Entry) = [] →
        getTopPeptide 1 [⟨2, [1/2], [5]⟩, ⟨1, [1/3], [7]⟩] = []) :=
  c7_amended 1 [⟨2, [1/2], [5]⟩, ⟨1, [1/3], [7]⟩]
    (by norm_num [List.pairwise_cons])

/-- Boolean `not less` on optional scores yields the pointwise order. -/
theorem optLtQ_false_le : ∀ (a b : Option ℚ), optLtQ a b = false → optLeP b a
  | some _, some _, h => le_of_not_lt (of_decide_eq_false h)
  | some _, none, h => Bool.noConfusion h
  | none, some _, _ => trivial
  | none, none, _ => trivial

/-- Boolean `less` on optional scores yields the pointwise order. -/
theorem optLtQ_true_le : ∀ (a b : Option ℚ), optLtQ a b = true → optLeP a b
  | some _, some _, h => le_of_lt (of_decide_eq_true h)
  | some _, none, _ => trivial
  | none, some _, h => Bool.noConfusion h
  | none, none, h => Bool.noConfusion h

/-- The pointwise order on optional scores is transitive. -/
theorem optLeP_trans : ∀ (a b c : Option ℚ), optLeP a b → optLeP b c → optLeP a c
  | some _, some _, some _, h1, h2 => le_trans h1 h2
  | some _, some _, none, _, _ => trivial
  | some _, none, some _, _, h2 => False.elim h2
  | some _, none, none, _, _ => trivial
  | none, some _, some _, h1, _ => False.elim h1
  | none, some _, none, h1, _ => False.elim h1
  | none, none, some _, _, h2 => False.elim h2
  | none, none, none, _, _ => trivial

/-- Evaluation of the three masked column scores of the concrete
continuation-selection instance: the pad column's positive mean is scaled
by `1e-8`, the genuine columns keep their mean `-1`. -/
theorem exMaskedScore_eval :
    maskedScore exTokens exScores (fun _ => false) 1 1 0 = some (1 / 10 ^ 8)
    ∧ maskedScore exTokens exScores (fun _ => false) 1 1 1 = some (-1)
    ∧ maskedScore exTokens exScores (fun _ => false) 1 1 2 = some (-1) := by
  refine ⟨?_, ?_, ?_⟩ <;>
    norm_num [maskedScore, colNanMean, nanMean, stepScoreAt, maskVal, exTokens,
      exScores, Option.some_ne_none,
      show List.range 2 = [0, 1] from rfl,
      show List.filterMap id [some (-1 : ℚ), some 3] = [-1, 3] from rfl,
      show List.filterMap id [some (-1 : ℚ), some (-1)] = [-1, -1] from rfl]

/-- Evaluation of the selected columns of the concrete
continuation-selection instance: the pad column `0` wins. -/
theorem exTopkCols_eval :
    topkCols (maskedScore exTokens exScores (fun _ => false) 1 1) (3 * 1) 1
      = [0] := by
  norm_num [topkCols, sortByDesc, insertByDesc, optLtQ,
    exMaskedScore_eval.1, exMaskedScore_eval.2.1, exMaskedScore_eval.2.2,
    show List.range (3 * 1) = [0, 1, 2] from rfl]

/-- Claim C8 counterexample: one spectrum, one still-active beam
(`finished = false`), vocabulary `{0 = pad, 1, 2}`, selecting for step `1`.
The beam's recorded score at position `0` is `-1`; at position `1` every
genuine token scores `-1` while the pad column's nan-aware mean is positive.
The pad mask `1e-8` only scales the pad column, so its masked score beats
the genuine columns' `-1`, and the active beam's selected continuation row
ends in the pad token `0` — the claim says pad is never selected for a
still-active beam. -/
theorem c8_counterexample :
    getTopkTokens exTokens exScores (fun _ => false) 1 3 1 0 = [1, 0] := by
  unfold getTopkTokens
  rw [exTopkCols_eval]
  norm_num [exTokens, show List.range 1 = [0] from rfl]

/-- Claim C8 amended: the continuation selection ranks all
(previous-beam × vocabulary) columns by nan-aware running mean multiplied by
the active mask — `1e-8` on pad columns (a soft penalty, not an exclusion),
`0` on other columns of finished beams, `1` on active ones — and keeps
`n_beams` columns whose masked scores dominate every unselected column.
Because pad is only scaled, it can be selected for an active beam when
every genuine continuation has negative running mean (see the
counterexample). -/
theorem c8_amended (tokens : Nat → Nat → Nat) (scores : Nat → Nat → Nat → Option ℚ)
    (finished : Nat → Bool) (S V step : Nat) (c1 c2 : Nat) (q1 q2 : ℚ)
    (hc1 : c1 ∈ topkCols (maskedScore tokens scores finished S step) (V * S) S)
    (hc2 : c2 < V * S)
    (hnc2 : c2 ∉ topkCols (maskedScore tokens scores finished S step) (V * S) S)
    (hq1 : maskedScore tokens scores finished S step c1 = some q1)
    (hq2 : maskedScore tokens scores finished S step c2 = some q2) :
    q2 ≤ q1 := by
  have hmem : c2 ∈ sortByDesc
      (fun a b => optLtQ (maskedScore tokens scores finished S step a)
        (maskedScore tokens scores finished S step b)) (List.range (V * S)) :=
    (sortByDesc_perm _ _).mem_iff.mpr (List.mem_range.mpr hc2)
  rw [← List.take_append_drop S (sortByDesc
      (fun a b => optLtQ (maskedScore tokens scores finished S step a)
        (maskedScore tokens scores finished S step b))
      (List.range (V * S)))] at hmem
  rcases List.mem_append.mp hmem with hmem2 | hmem2
  · exact absurd hmem2 hnc2
  · have hR := take_ge_drop
      (fun a b => optLtQ (maskedScore tokens scores finished S step a)
        (maskedScore tokens scores finished S step b))
      (fun a b => optLeP (maskedScore tokens scores finished S step b)
        (maskedScore tokens scores finished S step a))
      (fun _ _ h => optLtQ_false_le _ _ h)
      (fun _ _ h => optLtQ_true_le _ _ h)
      (fun _ _ _ h1 h2 => optLeP_trans _ _ _ h2 h1)
      (List.range (V * S)) S c1 c2 hc1 hmem2
    have hR2 : optLeP (maskedScore tokens scores finished S step c2)
        (maskedScore tokens scores finished S step c1) := hR
    rw [hq1, hq2] at hR2
    exact hR2

/-- Claim C8 witness: the dominance property at the counterexample
instance — the selected pad column `0` dominates the unselected genuine
column `1`. -/
theorem c8_witness :
    (0 ∈ topkCols (maskedScore exTokens exScores (fun _ => false) 1 1) (3 * 1) 1)
    ∧ (1 ∉ topkCols (maskedScore exTokens exScores (fun _ => false) 1 1) (3 * 1) 1)
    ∧ (-1 : ℚ) ≤ 1 / 10 ^ 8 := by
  have h0 : 0 ∈ topkCols (maskedScore exTokens exScores (fun _ => false) 1 1)
      (3 * 1) 1 := by
    rw [exTopkCols_eval]
    exact List.mem_singleton.mpr rfl
  have h1 : 1 ∉ topkCols (maskedScore exTokens exScores (fun _ => false) 1 1)
      (3 * 1) 1 := by
    rw [exTopkCols_eval]
    simp
  exact ⟨h0, h1,
    c8_amended exTokens exScores (fun _ => false) 1 3 1 0 1 (1 / 10 ^ 8) (-1)
      h0 (by norm_num) h1 exMaskedScore_eval.1 exMaskedScore_eval.2.1⟩

/-- Claim C3 witness: the amended characterization applied at the
counterexample instance. -/
theorem c3_witness :
    (2 ≤ 1 → modsDiscard 9 [7] [1, 7, 1] 2 = false)
    ∧ (1 < 2 →
        (modsDiscard 9 [7] [1, 7, 1] 2 = true ↔
          ∃ j, j ≤ (if [1, 7, 1].getD 2 0 = 9 then 2 - 1 else 2) - 1
            ∧ [1, 7, 1].getD j 0 ∈ [7])) :=
  c3_amended 9 [7] [1, 7, 1] 2 (by decide)

end Casanovo
